import Mathlib

/-!
Shallow embedding of `src/extension/background.js` from
yurikhan/firefox-i3-workspaces (the client-side Firefox add-on).

Modelling conventions:

* JavaScript `Map<UUID, WindowID>` objects and plain JSON objects are
  modelled as association lists `List (String × β)`.  Lookup (`Map.get`,
  property access) returns the first matching entry (`aget`); JS maps built
  by the code have unique keys, which appears as `Nodup` hypotheses where
  needed.  `new Map(entries)` (later entry wins, first position kept) is
  `jsMap`, built from `ainsert` which models `Map.prototype.set`.

* The browser state visible to the add-on is a record `St`:
  the global `windowMap`, the list of currently open window ids
  (`browser.windows.getAll`), the per-window session store for the
  `uuid` and `workspace` keys (`browser.sessions.get/setWindowValue`),
  and each window's `titlePreface` (`browser.windows.update`).

* Browser API calls whose window id argument is `undefined`
  (`windowMap.get(uuid)` on an unknown uuid) fail: WebExtensions argument
  validation rejects a missing required integer parameter at call time.
  This is modelled with `Except St St`, the `.error` payload being the
  state at the moment the failing call is issued (calls issued earlier
  have already taken effect, later ones are never issued).  Calls with a
  concrete integer window id are modelled as succeeding.

* Per-entry asynchronous operations that the code issues concurrently and
  awaits as a batch (`Promise.all`) touch pairwise disjoint parts of the
  state in every run the claims are about, so they are modelled in issue
  order, sequentially.  An asynchronous rejection (a write whose value is
  not JSON-ifiable) does not stop the other already-issued operations; a
  synchronous argument-validation throw stops the issuing loop.

* The object property access `payload[key]` is modelled with the prototype
  chain of a JSON-parsed plain object: an own key wins, otherwise the
  `Object.prototype` properties (`__proto__`, `toString`, ...) are found,
  otherwise the result is `undefined`.

* `self.crypto.randomUUID()` is modelled by a generator `gen : Nat → UUID`
  together with a counter threaded through the computation; the k-th fresh
  uuid generated is `gen k`.
-/

namespace Background

abbrev UUID := String
abbrev WindowID := Nat
abbrev Workspace := String

/-- Association-list lookup: first entry whose key matches.  Models
`Map.prototype.get` (and JS object property access), which returns
`undefined` (here `none`) when the key is absent. -/
def aget {β : Type} : List (String × β) → String → Option β
  | [], _ => none
  | p :: rest, k => if p.1 = k then some p.2 else aget rest k

/-- Models `Map.prototype.set`: if the key is present, replace its value in
place; otherwise append the new entry at the end. -/
def ainsert {β : Type} : List (String × β) → String → β → List (String × β)
  | [], k, v => [(k, v)]
  | p :: rest, k, v => if p.1 = k then (k, v) :: rest else p :: ainsert rest k v

/-- Models the JS `new Map(entries)` constructor: insert the entries in
order, a later entry with the same key overwriting the earlier one. -/
def jsMap {β : Type} (l : List (String × β)) : List (String × β) :=
  l.foldl (fun m p => ainsert m p.1 p.2) []

/-- Lookup that returns the value of the last matching entry of a raw entry
list; this is what `aget ∘ jsMap` computes (proved below). -/
def agetLast {β : Type} : List (String × β) → String → Option β
  | [], _ => none
  | p :: rest, k =>
    match agetLast rest k with
    | some v => some v
    | none => if p.1 = k then some p.2 else none

/-- Browser state as seen by the add-on. -/
structure St where
  windowMap : List (UUID × WindowID)
  openWindows : List WindowID
  uuidStore : WindowID → Option UUID
  wsStore : WindowID → Option Workspace
  title : WindowID → String

/-- Models `browser.sessions.setWindowValue(i, 'workspace', v)` at a
concrete window id. -/
def setWs (st : St) (i : WindowID) (v : Workspace) : St :=
  { st with wsStore := fun j => if j = i then some v else st.wsStore j }

/-- Models `browser.sessions.setWindowValue(i, 'uuid', v)` at a concrete
window id. -/
def setUuid (st : St) (i : WindowID) (v : UUID) : St :=
  { st with uuidStore := fun j => if j = i then some v else st.uuidStore j }

/-- Models `browser.windows.update(i, { titlePreface: t })` at a concrete
window id. -/
def setTitle (st : St) (i : WindowID) (t : String) : St :=
  { st with title := fun j => if j = i then t else st.title j }

/-- Recursion behind `makeWindowMap`: for each window in the list, read its
stored `uuid` session value; if absent, draw a fresh uuid from the
generator and persist it.  Returns the final state, the next generator
index, and the entry list `[uuid, w.id]` in window order (the argument of
`new Map(...)` in the source). -/
def makeWindowMapGo (gen : Nat → UUID) :
    St → Nat → List WindowID → St × Nat × List (UUID × WindowID)
  | st, _k, [] => (st, _k, [])
  | st, k, w :: rest =>
    match st.uuidStore w with
    | some u =>
      let r := makeWindowMapGo gen st k rest
      (r.1, r.2.1, (u, w) :: r.2.2)
    | none =>
      let r := makeWindowMapGo gen (setUuid st w (gen k)) (k + 1) rest
      (r.1, r.2.1, (gen k, w) :: r.2.2)

/-- `makeWindowMap(ws)` from the source: ensure a uuid for each window and
return `new Map(...)` of the `[uuid, id]` pairs. -/
def makeWindowMap (gen : Nat → UUID) (st : St) (k : Nat) (ws : List WindowID) :
    St × Nat × List (UUID × WindowID) :=
  let r := makeWindowMapGo gen st k ws
  (r.1, r.2.1, jsMap r.2.2)

/-- `updateWindowMap(wmap)` from the source:
`windowMap = new Map([...windowMap, ...wmap])`. -/
def updateWindowMap (st : St) (wmap : List (UUID × WindowID)) : St :=
  { st with windowMap := jsMap (st.windowMap ++ wmap) }

/-- `makeWindowsMessage(byUUID)` from the source: for each `[uuid, id]` of
the mapping, the entry `[uuid, (await getWindowValue(id, 'workspace')) ?? null]`;
the `windows` payload is the resulting object.  `none` models `null`.
The source only reads; it issues no write. -/
def makeWindowsMessage (st : St) (byUUID : List (UUID × WindowID)) :
    List (UUID × Option Workspace) :=
  byUUID.map (fun p => (p.1, st.wsStore p.2))

/-- `beaconifyWindows(byUUID)` from the source: for each `[uuid, id]`,
`browser.windows.update(id, { titlePreface: uuid + " | " })` (template
literal with a space, a vertical bar and a space after the uuid). -/
def beaconifyWindows : St → List (UUID × WindowID) → St
  | st, [] => st
  | st, (u, i) :: rest => beaconifyWindows (setTitle st i (u ++ " | ")) rest

/-- `unbeaconifyWindows(windows)` from the source: for each key `uuid` of
the payload object, `browser.windows.update(windowMap.get(uuid),
{ titlePreface: '' })`.  An unknown uuid makes `windowMap.get` return
`undefined`, and the update call with an undefined window id fails. -/
def unbeaconifyWindows : St → List UUID → Except St St
  | st, [] => .ok st
  | st, u :: rest =>
    match aget st.windowMap u with
    | some i => unbeaconifyWindows (setTitle st i "") rest
    | none => .error st

/-- `windowsMoved(payload)` from the source: for each `[uuid, workspace]`
entry, `browser.sessions.setWindowValue(windowMap.get(uuid), 'workspace',
workspace)`.  An unknown uuid makes the call fail as above. -/
def windowsMoved : St → List (UUID × Workspace) → Except St St
  | st, [] => .ok st
  | st, (u, w) :: rest =>
    match aget st.windowMap u with
    | some i => windowsMoved (setWs st i w) rest
    | none => .error st

/-- Own property names of `Object.prototype` (ECMA-262, including the
Annex B accessors), which a JSON-parsed plain object such as a rename
payload inherits. -/
def protoKeys : List String :=
  ["constructor", "hasOwnProperty", "isPrototypeOf", "propertyIsEnumerable",
   "toLocaleString", "toString", "valueOf", "__defineGetter__",
   "__defineSetter__", "__lookupGetter__", "__lookupSetter__", "__proto__"]

/-- Result of the JS property access `payload[key]` on a JSON-parsed plain
object: an own data property (a payload string), the inherited accessor
`__proto__` (whose value is `Object.prototype` itself), one of the
inherited function-valued `Object.prototype` properties, or `undefined`. -/
inductive PropVal where
  | str : String → PropVal
  | protoProto : PropVal
  | protoFun : PropVal
  | missing : PropVal

/-- JS property access `payload[key]` on a JSON-parsed plain object: an own
key wins (JSON parsing creates even `"__proto__"` as an own data
property); otherwise the lookup walks the prototype chain and finds the
`Object.prototype` properties; otherwise `undefined`. -/
def jsProp (payload : List (String × String)) (key : String) : PropVal :=
  match aget payload key with
  | some v => .str v
  | none =>
    if key = "__proto__" then .protoProto
    else if key ∈ protoKeys then .protoFun
    else .missing

/-- The lookup `payload[oldWorkspace]` performed by `workspaceRenamed`.
When the stored workspace is absent, `oldWorkspace` is `undefined`, and JS
property access coerces the key `undefined` to the string `"undefined"`. -/
def renameLookup (payload : List (Workspace × Workspace))
    (old : Option Workspace) : PropVal :=
  jsProp payload (old.getD "undefined")

/-- The value stored when `setWindowValue` receives the inherited
`__proto__` value: `Object.prototype` serializes to the empty plain object
(its own properties are non-enumerable).  The string-typed model store
represents that object by the string `"[object Object]"`, which is exactly
`ToPropertyKey` of the object, so a later `payload[oldWorkspace]` lookup
reading this stored value behaves as the real object would. -/
def emptyObjectRepr : String := "[object Object]"

/-- Recursion behind `workspaceRenamed`: for each open window, read its
stored workspace and evaluate `payload[oldWorkspace]`.  An own payload
entry is stored; the inherited `__proto__` value (not `undefined` either)
is stored as its serialization; an inherited function-valued property is
not `undefined` either, but `setWindowValue` rejects it as not
JSON-ifiable, leaving the stored value unchanged and failing the awaited
batch.  The per-window operations are issued concurrently and awaited with
`Promise.all`, so one rejected write does not stop the others; the boolean
records whether any write was rejected. -/
def workspaceRenamedGo (payload : List (Workspace × Workspace)) :
    St → List WindowID → St × Bool
  | st, [] => (st, false)
  | st, w :: rest =>
    match renameLookup payload (st.wsStore w) with
    | .str n => workspaceRenamedGo payload (setWs st w n) rest
    | .protoProto => workspaceRenamedGo payload (setWs st w emptyObjectRepr) rest
    | .protoFun =>
      let r := workspaceRenamedGo payload st rest
      (r.1, true)
    | .missing => workspaceRenamedGo payload st rest

/-- `workspaceRenamed(payload)` from the source: iterate over
`browser.windows.getAll()`. -/
def workspaceRenamed (st : St) (payload : List (Workspace × Workspace)) :
    St × Bool :=
  workspaceRenamedGo payload st st.openWindows

/-- A message from the host.  The three optional fields model the presence
of the keys `windows`, `window::move` and `workspace::rename`; `none`
covers both an absent key and a falsy value (the source tests each key for
truthiness). -/
structure HostMessage where
  windows : Option (List (UUID × Workspace))
  windowMove : Option (List (UUID × Workspace))
  workspaceRename : Option (List (Workspace × Workspace))

/-- `handleHostMessage(message)` from the source: the `windows` branch
first issues all the unbeaconify updates (`Object.keys`) and then all the
`windowsMoved` writes; the `window::move` branch only the latter; the
`workspace::rename` branch runs `workspaceRenamed`; otherwise nothing. -/
def handleHostMessage (st : St) (m : HostMessage) : Except St St :=
  match m.windows with
  | some p => do
    let s ← unbeaconifyWindows st (p.map Prod.fst)
    windowsMoved s p
  | none =>
    match m.windowMove with
    | some p => windowsMoved st p
    | none =>
      match m.workspaceRename with
      | some p =>
        let r := workspaceRenamed st p
        if r.2 then .error r.1 else .ok r.1
      | none => .ok st

/-- `handleWindowCreated(w)` from the source: build the (one-window) map,
merge it into the global map, build the sync-request message from it and
beaconify it, awaiting all of that, then post the message.  The returned
triple is the state at the moment `host.postMessage` runs, the next
generator index, and the posted `windows` payload. -/
def handleWindowCreated (gen : Nat → UUID) (st : St) (k : Nat) (w : WindowID) :
    St × Nat × List (UUID × Option Workspace) :=
  let r := makeWindowMap gen st k [w]
  let st2 := updateWindowMap r.1 r.2.2
  let msg := makeWindowsMessage st2 r.2.2
  (beaconifyWindows st2 r.2.2, r.2.1, msg)

/-- `main()` from the source: enumerate all windows, build their map, merge
it, then build the message from — and beaconify — the merged global
`windowMap` (not the fresh `wmap`), and post the message. -/
def main (gen : Nat → UUID) (st : St) (k : Nat) :
    St × Nat × List (UUID × Option Workspace) :=
  let r := makeWindowMap gen st k st.openWindows
  let st2 := updateWindowMap r.1 r.2.2
  let msg := makeWindowsMessage st2 st2.windowMap
  (beaconifyWindows st2 st2.windowMap, r.2.1, msg)

/-- Value of the last payload entry that resolves (through the window map
`wm`) to window id `i`; `none` when no entry does.  This is the net effect
on window `i` of the batch of `setWindowValue` writes issued by
`windowsMoved`. -/
def lastHit (wm : List (UUID × WindowID)) :
    List (UUID × Workspace) → WindowID → Option Workspace
  | [], _ => none
  | (u, w) :: rest, i =>
    match lastHit wm rest i with
    | some v => some v
    | none => if aget wm u = some i then some w else none

/-- Uuid of the last mapping entry whose window id is `i`; the net effect
on window `i`'s title of the batch of updates issued by
`beaconifyWindows`. -/
def lastBeacon : List (UUID × WindowID) → WindowID → Option UUID
  | [], _ => none
  | (u, j) :: rest, i =>
    match lastBeacon rest i with
    | some v => some v
    | none => if j = i then some u else none

/-- The state after `main` has executed `updateWindowMap(wmap)`: the input
state of the message-building and beaconifying batch of `main`. -/
def mainMerged (gen : Nat → UUID) (st : St) (k : Nat) : St :=
  updateWindowMap (makeWindowMap gen st k st.openWindows).1
    (makeWindowMap gen st k st.openWindows).2.2

/-- An injective uuid generator used to instantiate theorems about
`makeWindowMap` at concrete inputs. -/
def genU : Nat → UUID := fun i => String.mk (List.replicate i 'u')

/-! Lemmas about the association-list model of JS maps. -/

theorem aget_ainsert {β : Type} (m : List (String × β)) (k k' : String) (v : β) :
    aget (ainsert m k v) k' = if k' = k then some v else aget m k' := by
  induction m with
  | nil =>
    by_cases h : k' = k
    · simp [ainsert, aget, h]
    · have h2 : ¬ k = k' := fun hk => h hk.symm
      simp [ainsert, aget, h, h2]
  | cons p rest ih =>
    by_cases h : p.1 = k
    · by_cases h' : k' = k
      · simp [ainsert, aget, h, h']
      · have h2 : ¬ k = k' := fun hk => h' hk.symm
        have h3 : ¬ p.1 = k' := fun hp => h2 (h.symm.trans hp)
        simp [ainsert, aget, h, h', h2, h3]
    · by_cases h' : k' = k
      · subst h'
        simp [ainsert, aget, h, ih]
      · simp [ainsert, aget, h, h', ih]

theorem aget_foldl_ainsert {β : Type} (l : List (String × β)) :
    ∀ (acc : List (String × β)) (k : String),
      aget (l.foldl (fun m p => ainsert m p.1 p.2) acc) k =
        match agetLast l k with
        | some v => some v
        | none => aget acc k := by
  induction l with
  | nil => intro acc k; simp [agetLast]
  | cons p rest ih =>
    intro acc k
    simp only [List.foldl_cons, agetLast, ih]
    cases hr : agetLast rest k with
    | some v => simp
    | none =>
      simp only [aget_ainsert]
      by_cases h : p.1 = k
      · simp [h]
      · have h' : ¬ k = p.1 := fun hk => h hk.symm
        simp [h, h']

theorem aget_jsMap {β : Type} (l : List (String × β)) (k : String) :
    aget (jsMap l) k = agetLast l k := by
  rw [jsMap, aget_foldl_ainsert]
  cases h : agetLast l k <;> simp [aget]

theorem agetLast_append {β : Type} (l1 l2 : List (String × β)) (k : String) :
    agetLast (l1 ++ l2) k =
      match agetLast l2 k with
      | some v => some v
      | none => agetLast l1 k := by
  induction l1 with
  | nil => simp [agetLast]; cases h : agetLast l2 k <;> simp
  | cons p rest ih =>
    simp only [List.cons_append, agetLast, List.append_eq]
    rw [ih]
    cases h : agetLast l2 k with
    | some v => simp
    | none => cases h' : agetLast rest k <;> simp [agetLast, h']

theorem aget_eq_none_iff {β : Type} (l : List (String × β)) (k : String) :
    aget l k = none ↔ k ∉ l.map Prod.fst := by
  induction l with
  | nil => simp [aget]
  | cons p rest ih =>
    by_cases h : p.1 = k
    · simp [aget, h]
    · have h' : ¬ k = p.1 := fun hk => h hk.symm
      simp [aget, h, h', ih]

theorem agetLast_eq_aget {β : Type} (l : List (String × β))
    (h : (l.map Prod.fst).Nodup) (k : String) : agetLast l k = aget l k := by
  induction l with
  | nil => rfl
  | cons p rest ih =>
    simp only [List.map_cons, List.nodup_cons] at h
    simp only [agetLast, aget, ih h.2]
    by_cases hk : p.1 = k
    · have : aget rest k = none := by
        rw [aget_eq_none_iff]; rw [hk] at h; exact h.1
      simp [this, hk]
    · cases h' : aget rest k <;> simp [hk]

theorem ainsert_of_aget_none {β : Type} (m : List (String × β)) (k : String)
    (v : β) (h : aget m k = none) : ainsert m k v = m ++ [(k, v)] := by
  induction m with
  | nil => rfl
  | cons p rest ih =>
    by_cases hp : p.1 = k
    · simp [aget, hp] at h
    · simp only [aget, hp, if_false] at h
      simp [ainsert, hp, ih h]

theorem foldl_ainsert_eq_append {β : Type} (l : List (String × β)) :
    ∀ acc : List (String × β), ((acc ++ l).map Prod.fst).Nodup →
      l.foldl (fun m p => ainsert m p.1 p.2) acc = acc ++ l := by
  induction l with
  | nil => intro acc _; simp
  | cons p rest ih =>
    intro acc h
    have hmem : p.1 ∉ acc.map Prod.fst := by
      simp only [List.map_append, List.nodup_append] at h
      intro hmem
      exact h.2.2 hmem (by simp)
    have hnone : aget acc p.1 = none := (aget_eq_none_iff acc p.1).2 hmem
    simp only [List.foldl_cons, ainsert_of_aget_none acc p.1 p.2 hnone]
    have := ih (acc ++ [(p.1, p.2)]) (by simpa using h)
    simpa using this

theorem jsMap_eq_self {β : Type} (l : List (String × β))
    (h : (l.map Prod.fst).Nodup) : jsMap l = l := by
  have := foldl_ainsert_eq_append l [] (by simpa using h)
  simpa [jsMap] using this

/-! Field behaviour of the primitive state updates. -/

@[simp] theorem setWs_windowMap (st : St) (i : WindowID) (v : Workspace) :
    (setWs st i v).windowMap = st.windowMap := rfl

@[simp] theorem setWs_openWindows (st : St) (i : WindowID) (v : Workspace) :
    (setWs st i v).openWindows = st.openWindows := rfl

@[simp] theorem setWs_uuidStore (st : St) (i : WindowID) (v : Workspace) :
    (setWs st i v).uuidStore = st.uuidStore := rfl

@[simp] theorem setWs_title (st : St) (i : WindowID) (v : Workspace) :
    (setWs st i v).title = st.title := rfl

theorem setWs_wsStore (st : St) (i : WindowID) (v : Workspace) (j : WindowID) :
    (setWs st i v).wsStore j = if j = i then some v else st.wsStore j := rfl

@[simp] theorem setUuid_windowMap (st : St) (i : WindowID) (v : UUID) :
    (setUuid st i v).windowMap = st.windowMap := rfl

@[simp] theorem setUuid_openWindows (st : St) (i : WindowID) (v : UUID) :
    (setUuid st i v).openWindows = st.openWindows := rfl

@[simp] theorem setUuid_wsStore (st : St) (i : WindowID) (v : UUID) :
    (setUuid st i v).wsStore = st.wsStore := rfl

@[simp] theorem setUuid_title (st : St) (i : WindowID) (v : UUID) :
    (setUuid st i v).title = st.title := rfl

theorem setUuid_uuidStore (st : St) (i : WindowID) (v : UUID) (j : WindowID) :
    (setUuid st i v).uuidStore j = if j = i then some v else st.uuidStore j := rfl

@[simp] theorem setTitle_windowMap (st : St) (i : WindowID) (t : String) :
    (setTitle st i t).windowMap = st.windowMap := rfl

@[simp] theorem setTitle_openWindows (st : St) (i : WindowID) (t : String) :
    (setTitle st i t).openWindows = st.openWindows := rfl

@[simp] theorem setTitle_wsStore (st : St) (i : WindowID) (t : String) :
    (setTitle st i t).wsStore = st.wsStore := rfl

@[simp] theorem setTitle_uuidStore (st : St) (i : WindowID) (t : String) :
    (setTitle st i t).uuidStore = st.uuidStore := rfl

theorem setTitle_title (st : St) (i : WindowID) (t : String) (j : WindowID) :
    (setTitle st i t).title j = if j = i then t else st.title j := rfl

/-! Characterisation of `windowsMoved`. -/

theorem windowsMoved_fields (p : List (UUID × Workspace)) :
    ∀ st st', windowsMoved st p = .ok st' →
      st'.windowMap = st.windowMap ∧ st'.openWindows = st.openWindows ∧
      st'.uuidStore = st.uuidStore ∧ st'.title = st.title := by
  induction p with
  | nil =>
    intro st st' h
    simp only [windowsMoved, Except.ok.injEq] at h
    subst h; exact ⟨rfl, rfl, rfl, rfl⟩
  | cons e rest ih =>
    intro st st' h
    obtain ⟨u, w⟩ := e
    cases hg : aget st.windowMap u with
    | some i =>
      simp only [windowsMoved, hg] at h
      obtain ⟨h1, h2, h3, h4⟩ := ih (setWs st i w) st' h
      simp at h1 h2 h3 h4
      exact ⟨h1, h2, h3, h4⟩
    | none => simp [windowsMoved, hg] at h

theorem windowsMoved_wsStore (p : List (UUID × Workspace)) :
    ∀ st st', windowsMoved st p = .ok st' → ∀ i,
      st'.wsStore i =
        match lastHit st.windowMap p i with
        | some v => some v
        | none => st.wsStore i := by
  induction p with
  | nil =>
    intro st st' h i
    simp only [windowsMoved, Except.ok.injEq] at h
    subst h; simp [lastHit]
  | cons e rest ih =>
    intro st st' h i
    obtain ⟨u, w⟩ := e
    cases hg : aget st.windowMap u with
    | none => simp [windowsMoved, hg] at h
    | some i0 =>
      simp only [windowsMoved, hg] at h
      have := ih (setWs st i0 w) st' h i
      simp only [setWs_windowMap] at this
      rw [this]
      simp only [lastHit]
      cases hr : lastHit st.windowMap rest i with
      | some v => simp
      | none =>
        simp only [hg, setWs_wsStore]
        by_cases hi : i = i0
        · subst hi; simp
        · have hi' : ¬ i0 = i := fun hk => hi hk.symm
          simp [hi, hi']

theorem windowsMoved_isOk (p : List (UUID × Workspace)) :
    ∀ st, (∀ e ∈ p, (aget st.windowMap e.1).isSome) →
      ∃ st', windowsMoved st p = .ok st' := by
  induction p with
  | nil => intro st _; exact ⟨st, rfl⟩
  | cons e rest ih =>
    intro st hK
    obtain ⟨u, w⟩ := e
    have hu := hK (u, w) (by simp)
    cases hg : aget st.windowMap u with
    | none => rw [hg] at hu; simp at hu
    | some i =>
      obtain ⟨st', hst'⟩ := ih (setWs st i w) (by
        intro e he
        simpa using hK e (by simp [he]))
      exact ⟨st', by simp [windowsMoved, hg, hst']⟩

theorem windowsMoved_known (p : List (UUID × Workspace)) :
    ∀ st st', windowsMoved st p = .ok st' →
      ∀ e ∈ p, (aget st.windowMap e.1).isSome := by
  induction p with
  | nil => intro st st' _ e he; simp at he
  | cons e0 rest ih =>
    intro st st' h e he
    obtain ⟨u, w⟩ := e0
    cases hg : aget st.windowMap u with
    | none => simp [windowsMoved, hg] at h
    | some i =>
      simp only [windowsMoved, hg] at h
      rcases List.mem_cons.1 he with he | he
      · subst he; simp [hg]
      · have := ih (setWs st i w) st' h e he
        simpa using this

theorem windowsMoved_append (p1 p2 : List (UUID × Workspace)) :
    ∀ st s1, windowsMoved st p1 = .ok s1 →
      windowsMoved st (p1 ++ p2) = windowsMoved s1 p2 := by
  induction p1 with
  | nil =>
    intro st s1 h
    simp only [windowsMoved, Except.ok.injEq] at h
    subst h; simp
  | cons e rest ih =>
    intro st s1 h
    obtain ⟨u, w⟩ := e
    cases hg : aget st.windowMap u with
    | none => simp [windowsMoved, hg] at h
    | some i =>
      simp only [windowsMoved, hg] at h
      simp only [List.cons_append, windowsMoved, hg]
      exact ih (setWs st i w) s1 h

theorem windowsMoved_error_head (st : St) (u : UUID) (w : Workspace)
    (p2 : List (UUID × Workspace)) (h : aget st.windowMap u = none) :
    windowsMoved st ((u, w) :: p2) = .error st := by
  simp [windowsMoved, h]

/-! Characterisation of `unbeaconifyWindows`. -/

theorem unbeaconify_fields (us : List UUID) :
    ∀ st st', unbeaconifyWindows st us = .ok st' →
      st'.windowMap = st.windowMap ∧ st'.openWindows = st.openWindows ∧
      st'.uuidStore = st.uuidStore ∧ st'.wsStore = st.wsStore := by
  induction us with
  | nil =>
    intro st st' h
    simp only [unbeaconifyWindows, Except.ok.injEq] at h
    subst h; exact ⟨rfl, rfl, rfl, rfl⟩
  | cons u rest ih =>
    intro st st' h
    cases hg : aget st.windowMap u with
    | none => simp [unbeaconifyWindows, hg] at h
    | some i =>
      simp only [unbeaconifyWindows, hg] at h
      obtain ⟨h1, h2, h3, h4⟩ := ih (setTitle st i "") st' h
      simp at h1 h2 h3 h4
      exact ⟨h1, h2, h3, h4⟩

theorem unbeaconify_title (us : List UUID) :
    ∀ st st', unbeaconifyWindows st us = .ok st' → ∀ i,
      st'.title i =
        if ∃ u ∈ us, aget st.windowMap u = some i then "" else st.title i := by
  induction us with
  | nil =>
    intro st st' h i
    simp only [unbeaconifyWindows, Except.ok.injEq] at h
    subst h; simp
  | cons u0 rest ih =>
    intro st st' h i
    cases hg : aget st.windowMap u0 with
    | none => simp [unbeaconifyWindows, hg] at h
    | some i0 =>
      simp only [unbeaconifyWindows, hg] at h
      have := ih (setTitle st i0 "") st' h i
      simp only [setTitle_windowMap] at this
      rw [this]
      by_cases hr : ∃ u ∈ rest, aget st.windowMap u = some i
      · have : ∃ u ∈ u0 :: rest, aget st.windowMap u = some i := by
          obtain ⟨u, hu, hgu⟩ := hr
          exact ⟨u, by simp [hu], hgu⟩
        simp [hr, this]
      · by_cases hi : i = i0
        · subst hi
          have : ∃ u ∈ u0 :: rest, aget st.windowMap u = some i := ⟨u0, by simp, hg⟩
          simp [hr, this, setTitle_title, hg]
        · have hne : ¬ aget st.windowMap u0 = some i := by
            rw [hg]
            simp only [Option.some.injEq]
            exact fun hk => hi hk.symm
          simp [hr, setTitle_title, hi, hne]

theorem unbeaconify_isOk (us : List UUID) :
    ∀ st, (∀ u ∈ us, (aget st.windowMap u).isSome) →
      ∃ st', unbeaconifyWindows st us = .ok st' := by
  induction us with
  | nil => intro st _; exact ⟨st, rfl⟩
  | cons u rest ih =>
    intro st hK
    have hu := hK u (by simp)
    cases hg : aget st.windowMap u with
    | none => rw [hg] at hu; simp at hu
    | some i =>
      obtain ⟨st', hst'⟩ := ih (setTitle st i "") (by
        intro u' hu'
        simpa using hK u' (by simp [hu']))
      exact ⟨st', by simp [unbeaconifyWindows, hg, hst']⟩

theorem unbeaconify_known (us : List UUID) :
    ∀ st st', unbeaconifyWindows st us = .ok st' →
      ∀ u ∈ us, (aget st.windowMap u).isSome := by
  induction us with
  | nil => intro st st' _ u hu; simp at hu
  | cons u0 rest ih =>
    intro st st' h u hu
    cases hg : aget st.windowMap u0 with
    | none => simp [unbeaconifyWindows, hg] at h
    | some i =>
      simp only [unbeaconifyWindows, hg] at h
      rcases List.mem_cons.1 hu with h' | h'
      · subst h'; simp [hg]
      · have := ih (setTitle st i "") st' h u h'
        simpa using this

/-! Characterisation of `beaconifyWindows`. -/

theorem beaconify_fields (l : List (UUID × WindowID)) :
    ∀ st, (beaconifyWindows st l).windowMap = st.windowMap ∧
      (beaconifyWindows st l).openWindows = st.openWindows ∧
      (beaconifyWindows st l).uuidStore = st.uuidStore ∧
      (beaconifyWindows st l).wsStore = st.wsStore := by
  induction l with
  | nil => intro st; exact ⟨rfl, rfl, rfl, rfl⟩
  | cons e rest ih =>
    intro st
    obtain ⟨u, i⟩ := e
    have := ih (setTitle st i (u ++ " | "))
    simpa [beaconifyWindows] using this

theorem beaconify_title (l : List (UUID × WindowID)) :
    ∀ st i, (beaconifyWindows st l).title i =
      match lastBeacon l i with
      | some u => u ++ " | "
      | none => st.title i := by
  induction l with
  | nil => intro st i; simp [beaconifyWindows, lastBeacon]
  | cons e rest ih =>
    intro st i
    obtain ⟨u0, j0⟩ := e
    simp only [beaconifyWindows, lastBeacon]
    rw [ih]
    cases hr : lastBeacon rest i with
    | some v => simp
    | none =>
      simp only [setTitle_title]
      by_cases hi : i = j0
      · subst hi; simp
      · have hi' : ¬ j0 = i := fun hk => hi hk.symm
        simp [hi, hi']

theorem lastBeacon_eq_none (l : List (UUID × WindowID)) (i : WindowID) :
    i ∉ l.map Prod.snd → lastBeacon l i = none := by
  induction l with
  | nil => intro _; rfl
  | cons e rest ih =>
    intro h
    obtain ⟨u, j⟩ := e
    simp only [List.map_cons, List.mem_cons] at h
    push_neg at h
    simp only [lastBeacon, ih h.2]
    have : ¬ j = i := fun hk => h.1 hk.symm
    simp [this]

theorem lastBeacon_of_mem (l : List (UUID × WindowID)) (u : UUID) (i : WindowID)
    (hN : (l.map Prod.snd).Nodup) (hm : (u, i) ∈ l) : lastBeacon l i = some u := by
  induction l with
  | nil => simp at hm
  | cons e rest ih =>
    obtain ⟨u0, j0⟩ := e
    simp only [List.map_cons, List.nodup_cons] at hN
    rcases List.mem_cons.1 hm with h' | h'
    · injection h' with h1 h2
      subst h1; subst h2
      have : lastBeacon rest i = none := by
        apply lastBeacon_eq_none
        exact hN.1
      simp [lastBeacon, this]
    · have := ih hN.2 h'
      simp [lastBeacon, this]

/-! Characterisation of `workspaceRenamedGo`. -/

theorem renameGo_fields (payload : List (Workspace × Workspace))
    (ws : List WindowID) :
    ∀ st, (workspaceRenamedGo payload st ws).1.windowMap = st.windowMap ∧
      (workspaceRenamedGo payload st ws).1.openWindows = st.openWindows ∧
      (workspaceRenamedGo payload st ws).1.uuidStore = st.uuidStore ∧
      (workspaceRenamedGo payload st ws).1.title = st.title := by
  induction ws with
  | nil => intro st; exact ⟨rfl, rfl, rfl, rfl⟩
  | cons w rest ih =>
    intro st
    cases hl : renameLookup payload (st.wsStore w) with
    | str n =>
      have := ih (setWs st w n)
      simpa [workspaceRenamedGo, hl] using this
    | protoProto =>
      have := ih (setWs st w emptyObjectRepr)
      simpa [workspaceRenamedGo, hl] using this
    | protoFun =>
      have := ih st
      simpa [workspaceRenamedGo, hl] using this
    | missing =>
      have := ih st
      simpa [workspaceRenamedGo, hl] using this

theorem renameGo_not_mem (payload : List (Workspace × Workspace))
    (ws : List WindowID) (w : WindowID) :
    ∀ st, w ∉ ws →
      (workspaceRenamedGo payload st ws).1.wsStore w = st.wsStore w := by
  induction ws with
  | nil => intro st _; rfl
  | cons w0 rest ih =>
    intro st h
    simp only [List.mem_cons] at h
    push_neg at h
    cases hl : renameLookup payload (st.wsStore w0) with
    | str n =>
      have := ih (setWs st w0 n) h.2
      rw [workspaceRenamedGo, hl] at *
      rw [this, setWs_wsStore]
      simp [h.1]
    | protoProto =>
      have := ih (setWs st w0 emptyObjectRepr) h.2
      rw [workspaceRenamedGo, hl] at *
      rw [this, setWs_wsStore]
      simp [h.1]
    | protoFun =>
      have := ih st h.2
      rw [workspaceRenamedGo, hl]
      exact this
    | missing =>
      have := ih st h.2
      rw [workspaceRenamedGo, hl]
      exact this

theorem renameGo_mem (payload : List (Workspace × Workspace))
    (ws : List WindowID) :
    ∀ st, ws.Nodup → ∀ w ∈ ws,
      (workspaceRenamedGo payload st ws).1.wsStore w =
        match renameLookup payload (st.wsStore w) with
        | .str n => some n
        | .protoProto => some emptyObjectRepr
        | .protoFun => st.wsStore w
        | .missing => st.wsStore w := by
  induction ws with
  | nil => intro st _ w hw; simp at hw
  | cons w0 rest ih =>
    intro st hN w hw
    simp only [List.nodup_cons] at hN
    rcases List.mem_cons.1 hw with h' | h'
    · subst h'
      cases hl : renameLookup payload (st.wsStore w) with
      | str n =>
        rw [workspaceRenamedGo, hl]
        rw [renameGo_not_mem payload rest w (setWs st w n) hN.1]
        simp [setWs_wsStore]
      | protoProto =>
        rw [workspaceRenamedGo, hl]
        rw [renameGo_not_mem payload rest w (setWs st w emptyObjectRepr) hN.1]
        simp [setWs_wsStore]
      | protoFun =>
        rw [workspaceRenamedGo, hl]
        exact renameGo_not_mem payload rest w st hN.1
      | missing =>
        rw [workspaceRenamedGo, hl]
        exact renameGo_not_mem payload rest w st hN.1
    · have hw0 : w ≠ w0 := fun hk => hN.1 (hk ▸ h')
      have hsame : ∀ v, (setWs st w0 v).wsStore w = st.wsStore w := by
        intro v
        rw [setWs_wsStore]
        simp [hw0]
      cases hl : renameLookup payload (st.wsStore w0) with
      | str n =>
        rw [workspaceRenamedGo, hl]
        have := ih (setWs st w0 n) hN.2 w h'
        rw [this, hsame]
      | protoProto =>
        rw [workspaceRenamedGo, hl]
        have := ih (setWs st w0 emptyObjectRepr) hN.2 w h'
        rw [this, hsame]
      | protoFun =>
        rw [workspaceRenamedGo, hl]
        exact ih st hN.2 w h'
      | missing =>
        rw [workspaceRenamedGo, hl]
        exact ih st hN.2 w h'

theorem renameGo_flag (payload : List (Workspace × Workspace))
    (ws : List WindowID) :
    ∀ st, ws.Nodup →
      ((workspaceRenamedGo payload st ws).2 = true ↔
        ∃ w ∈ ws, renameLookup payload (st.wsStore w) = .protoFun) := by
  induction ws with
  | nil => intro st _; simp [workspaceRenamedGo]
  | cons w0 rest ih =>
    intro st hN
    simp only [List.nodup_cons] at hN
    have congr_rest : ∀ v, (∃ w ∈ rest,
        renameLookup payload ((setWs st w0 v).wsStore w) = .protoFun) ↔
        ∃ w ∈ rest, renameLookup payload (st.wsStore w) = .protoFun := by
      intro v
      constructor
      · rintro ⟨w, hw, hr⟩
        have hw0 : w ≠ w0 := fun hk => hN.1 (hk ▸ hw)
        rw [setWs_wsStore] at hr
        simp only [hw0, if_false] at hr
        exact ⟨w, hw, hr⟩
      · rintro ⟨w, hw, hr⟩
        have hw0 : w ≠ w0 := fun hk => hN.1 (hk ▸ hw)
        refine ⟨w, hw, ?_⟩
        rw [setWs_wsStore]
        simp only [hw0, if_false]
        exact hr
    cases hl : renameLookup payload (st.wsStore w0) with
    | str n =>
      rw [workspaceRenamedGo, hl, ih (setWs st w0 n) hN.2, congr_rest n]
      constructor
      · intro h; exact h.imp (fun w h => ⟨List.mem_cons_of_mem w0 h.1, h.2⟩)
      · rintro ⟨w, hw, hr⟩
        rcases List.mem_cons.1 hw with h' | h'
        · subst h'
          rw [hl] at hr
          exact absurd hr (by simp)
        · exact ⟨w, h', hr⟩
    | protoProto =>
      rw [workspaceRenamedGo, hl, ih (setWs st w0 emptyObjectRepr) hN.2,
        congr_rest emptyObjectRepr]
      constructor
      · intro h; exact h.imp (fun w h => ⟨List.mem_cons_of_mem w0 h.1, h.2⟩)
      · rintro ⟨w, hw, hr⟩
        rcases List.mem_cons.1 hw with h' | h'
        · subst h'
          rw [hl] at hr
          exact absurd hr (by simp)
        · exact ⟨w, h', hr⟩
    | protoFun =>
      rw [workspaceRenamedGo, hl]
      constructor
      · intro _; exact ⟨w0, by simp, hl⟩
      · intro _; rfl
    | missing =>
      rw [workspaceRenamedGo, hl, ih st hN.2]
      constructor
      · intro h; exact h.imp (fun w h => ⟨List.mem_cons_of_mem w0 h.1, h.2⟩)
      · rintro ⟨w, hw, hr⟩
        rcases List.mem_cons.1 hw with h' | h'
        · subst h'
          rw [hl] at hr
          exact absurd hr (by simp)
        · exact ⟨w, h', hr⟩

/-! Characterisation of `makeWindowMapGo`. -/

theorem mkGo_snd (gen : Nat → UUID) (ws : List WindowID) :
    ∀ st k, (makeWindowMapGo gen st k ws).2.2.map Prod.snd = ws := by
  induction ws with
  | nil => intro st k; rfl
  | cons w rest ih =>
    intro st k
    cases hu : st.uuidStore w with
    | some u => simp [makeWindowMapGo, hu, ih]
    | none => simp [makeWindowMapGo, hu, ih]

theorem mkGo_fields (gen : Nat → UUID) (ws : List WindowID) :
    ∀ st k, (makeWindowMapGo gen st k ws).1.windowMap = st.windowMap ∧
      (makeWindowMapGo gen st k ws).1.openWindows = st.openWindows ∧
      (makeWindowMapGo gen st k ws).1.wsStore = st.wsStore ∧
      (makeWindowMapGo gen st k ws).1.title = st.title := by
  induction ws with
  | nil => intro st k; exact ⟨rfl, rfl, rfl, rfl⟩
  | cons w rest ih =>
    intro st k
    cases hu : st.uuidStore w with
    | some u => simpa [makeWindowMapGo, hu] using ih st k
    | none =>
      have := ih (setUuid st w (gen k)) (k + 1)
      simpa [makeWindowMapGo, hu] using this

theorem mkGo_keep (gen : Nat → UUID) (ws : List WindowID) :
    ∀ st k w u, st.uuidStore w = some u →
      (makeWindowMapGo gen st k ws).1.uuidStore w = some u := by
  induction ws with
  | nil => intro st k w u h; exact h
  | cons w0 rest ih =>
    intro st k w u h
    cases hu : st.uuidStore w0 with
    | some u0 => simpa [makeWindowMapGo, hu] using ih st k w u h
    | none =>
      have hw : w ≠ w0 := by
        intro hk; rw [hk, hu] at h; exact Option.noConfusion h
      have h1 : (setUuid st w0 (gen k)).uuidStore w = some u := by
        rw [setUuid_uuidStore]; simp [hw, h]
      simpa [makeWindowMapGo, hu] using ih (setUuid st w0 (gen k)) (k + 1) w u h1

theorem mkGo_not_mem (gen : Nat → UUID) (ws : List WindowID) :
    ∀ st k w, w ∉ ws →
      (makeWindowMapGo gen st k ws).1.uuidStore w = st.uuidStore w := by
  induction ws with
  | nil => intro st k w _; rfl
  | cons w0 rest ih =>
    intro st k w h
    simp only [List.mem_cons] at h
    push_neg at h
    cases hu : st.uuidStore w0 with
    | some u0 => simpa [makeWindowMapGo, hu] using ih st k w h.2
    | none =>
      have h1 : (setUuid st w0 (gen k)).uuidStore w = st.uuidStore w := by
        rw [setUuid_uuidStore]; simp [h.1]
      have := ih (setUuid st w0 (gen k)) (k + 1) w h.2
      rw [h1] at this
      simpa [makeWindowMapGo, hu] using this

theorem mkGo_mem_stored (gen : Nat → UUID) (ws : List WindowID) :
    ∀ st k w u, w ∈ ws → st.uuidStore w = some u →
      (u, w) ∈ (makeWindowMapGo gen st k ws).2.2 := by
  induction ws with
  | nil => intro st k w u hw _; simp at hw
  | cons w0 rest ih =>
    intro st k w u hw h
    rcases List.mem_cons.1 hw with h' | h'
    · subst h'
      cases hu : st.uuidStore w with
      | some u0 =>
        rw [hu] at h; injection h with h''
        subst h''
        simp [makeWindowMapGo, hu]
      | none => rw [hu] at h; exact Option.noConfusion h
    · cases hu : st.uuidStore w0 with
      | some u0 => simp [makeWindowMapGo, hu, ih st k w u h' h]
      | none =>
        by_cases hw0 : w = w0
        · subst hw0; rw [hu] at h; exact Option.noConfusion h
        · have h1 : (setUuid st w0 (gen k)).uuidStore w = some u := by
            rw [setUuid_uuidStore]; simp [hw0, h]
          simp [makeWindowMapGo, hu, ih (setUuid st w0 (gen k)) (k + 1) w u h' h1]

theorem mkGo_mem_fresh (gen : Nat → UUID) (ws : List WindowID) :
    ∀ st k w, w ∈ ws → st.uuidStore w = none →
      ∃ u, (makeWindowMapGo gen st k ws).1.uuidStore w = some u ∧
        (u, w) ∈ (makeWindowMapGo gen st k ws).2.2 := by
  induction ws with
  | nil => intro st k w hw _; simp at hw
  | cons w0 rest ih =>
    intro st k w hw h
    by_cases hw0 : w = w0
    · subst hw0
      refine ⟨gen k, ?_, ?_⟩
      · have h1 : (setUuid st w (gen k)).uuidStore w = some (gen k) := by
          rw [setUuid_uuidStore]; simp
        simpa [makeWindowMapGo, h] using
          mkGo_keep gen rest (setUuid st w (gen k)) (k + 1) w (gen k) h1
      · simp [makeWindowMapGo, h]
    · have h' : w ∈ rest := by
        rcases List.mem_cons.1 hw with h'' | h''
        · exact absurd h'' hw0
        · exact h''
      cases hu : st.uuidStore w0 with
      | some u0 =>
        obtain ⟨u, hu1, hu2⟩ := ih st k w h' h
        exact ⟨u, by simpa [makeWindowMapGo, hu] using hu1,
          by simp [makeWindowMapGo, hu, hu2]⟩
      | none =>
        have h1 : (setUuid st w0 (gen k)).uuidStore w = none := by
          rw [setUuid_uuidStore]; simp [hw0, h]
        obtain ⟨u, hu1, hu2⟩ := ih (setUuid st w0 (gen k)) (k + 1) w h' h1
        exact ⟨u, by simpa [makeWindowMapGo, hu] using hu1,
          by simp [makeWindowMapGo, hu, hu2]⟩

theorem mkGo_entries_stored (gen : Nat → UUID) (ws : List WindowID) :
    ∀ st k e, e ∈ (makeWindowMapGo gen st k ws).2.2 →
      (makeWindowMapGo gen st k ws).1.uuidStore e.2 = some e.1 := by
  induction ws with
  | nil => intro st k e he; simp [makeWindowMapGo] at he
  | cons w0 rest ih =>
    intro st k e he
    cases hu : st.uuidStore w0 with
    | some u0 =>
      simp only [makeWindowMapGo, hu] at he ⊢
      rcases List.mem_cons.1 he with h' | h'
      · subst h'
        exact mkGo_keep gen rest st k w0 u0 hu
      · exact ih st k e h'
    | none =>
      simp only [makeWindowMapGo, hu] at he ⊢
      rcases List.mem_cons.1 he with h' | h'
      · subst h'
        have h1 : (setUuid st w0 (gen k)).uuidStore w0 = some (gen k) := by
          rw [setUuid_uuidStore]; simp
        exact mkGo_keep gen rest (setUuid st w0 (gen k)) (k + 1) w0 (gen k) h1
      · exact ih (setUuid st w0 (gen k)) (k + 1) e h'

theorem mkGo_inv (gen : Nat → UUID) (hInj : ∀ i j, gen i = gen j → i = j)
    (ws : List WindowID) :
    ∀ st k,
      (∀ w w' u, st.uuidStore w = some u → st.uuidStore w' = some u → w = w') →
      (∀ i w, k ≤ i → st.uuidStore w ≠ some (gen i)) →
      ∀ w w' u, (makeWindowMapGo gen st k ws).1.uuidStore w = some u →
        (makeWindowMapGo gen st k ws).1.uuidStore w' = some u → w = w' := by
  induction ws with
  | nil => intro st k hD _ w w' u h1 h2; exact hD w w' u h1 h2
  | cons w0 rest ih =>
    intro st k hD hF w w' u h1 h2
    cases hu : st.uuidStore w0 with
    | some u0 =>
      simp only [makeWindowMapGo, hu] at h1 h2
      exact ih st k hD hF w w' u h1 h2
    | none =>
      simp only [makeWindowMapGo, hu] at h1 h2
      refine ih (setUuid st w0 (gen k)) (k + 1) ?_ ?_ w w' u h1 h2
      · intro a b v ha hb
        rw [setUuid_uuidStore] at ha hb
        by_cases haw : a = w0 <;> by_cases hbw : b = w0
        · rw [haw, hbw]
        · simp only [haw, if_pos rfl] at ha
          simp only [hbw, if_neg hbw] at hb
          injection ha with ha'
          rw [← ha'] at hb
          exact absurd hb (hF k b le_rfl)
        · simp only [haw, if_neg haw] at ha
          simp only [hbw, if_pos rfl] at hb
          injection hb with hb'
          rw [← hb'] at ha
          exact absurd ha (hF k a le_rfl)
        · simp only [if_neg haw] at ha
          simp only [if_neg hbw] at hb
          exact hD a b v ha hb
      · intro i a hi ha
        rw [setUuid_uuidStore] at ha
        by_cases haw : a = w0
        · simp only [if_pos haw] at ha
          injection ha with ha'
          have := hInj k i ha'
          omega
        · simp only [if_neg haw] at ha
          exact hF i a (by omega) ha

theorem mkGo_keys_nodup (gen : Nat → UUID) (hInj : ∀ i j, gen i = gen j → i = j)
    (ws : List WindowID) (st : St) (k : Nat)
    (hD : ∀ w w' u, st.uuidStore w = some u → st.uuidStore w' = some u → w = w')
    (hF : ∀ i w, k ≤ i → st.uuidStore w ≠ some (gen i))
    (hN : ws.Nodup) :
    ((makeWindowMapGo gen st k ws).2.2.map Prod.fst).Nodup := by
  have hsnd : (makeWindowMapGo gen st k ws).2.2.map Prod.snd = ws :=
    mkGo_snd gen ws st k
  have hps : (makeWindowMapGo gen st k ws).2.2.Pairwise (fun a b => a.2 ≠ b.2) := by
    have := hsnd ▸ hN
    exact List.pairwise_map.1 this
  have hpf : (makeWindowMapGo gen st k ws).2.2.Pairwise (fun a b => a.1 ≠ b.1) := by
    refine hps.imp_of_mem ?_
    intro a b ha hb hab h1
    apply hab
    have sa := mkGo_entries_stored gen ws st k a ha
    have sb := mkGo_entries_stored gen ws st k b hb
    rw [h1] at sa
    exact mkGo_inv gen hInj ws st k hD hF a.2 b.2 b.1 sa sb
  exact List.pairwise_map.2 hpf

/-! Further auxiliary lemmas used to assemble the claim theorems. -/

theorem lastHit_eq_some (wm : List (UUID × WindowID)) (p : List (UUID × Workspace))
    (i : WindowID) (v : Workspace) :
    lastHit wm p i = some v → ∃ e ∈ p, aget wm e.1 = some i ∧ e.2 = v := by
  induction p with
  | nil => intro h; exact Option.noConfusion h
  | cons e0 rest ih =>
    intro h
    obtain ⟨u, w⟩ := e0
    simp only [lastHit] at h
    cases hr : lastHit wm rest i with
    | some v' =>
      rw [hr] at h
      injection h with h'
      subst h'
      obtain ⟨e, he, hg, hv⟩ := ih hr
      exact ⟨e, by simp [he], hg, hv⟩
    | none =>
      rw [hr] at h
      by_cases hg : aget wm u = some i
      · rw [if_pos hg] at h
        injection h with h'
        exact ⟨(u, w), by simp, hg, h'⟩
      · rw [if_neg hg] at h
        exact Option.noConfusion h

theorem lastHit_isSome_of_mem (wm : List (UUID × WindowID))
    (p : List (UUID × Workspace)) (i : WindowID) (e : UUID × Workspace)
    (he : e ∈ p) (hg : aget wm e.1 = some i) : (lastHit wm p i).isSome := by
  induction p with
  | nil => simp at he
  | cons e0 rest ih =>
    obtain ⟨u, w⟩ := e0
    simp only [lastHit]
    cases hr : lastHit wm rest i with
    | some v => simp
    | none =>
      rcases List.mem_cons.1 he with h' | h'
      · subst h'; simp [hg]
      · have := ih h'
        rw [hr] at this
        simp at this

theorem lastHit_of_unique (wm : List (UUID × WindowID))
    (p : List (UUID × Workspace)) (i : WindowID) (e : UUID × Workspace)
    (he : e ∈ p) (hg : aget wm e.1 = some i)
    (huniq : ∀ e' ∈ p, aget wm e'.1 = some i → e' = e) :
    lastHit wm p i = some e.2 := by
  induction p with
  | nil => simp at he
  | cons e0 rest ih =>
    obtain ⟨u, w⟩ := e0
    simp only [lastHit]
    cases hr : lastHit wm rest i with
    | some v =>
      obtain ⟨e', he', hg', hv⟩ := lastHit_eq_some wm rest i v hr
      have := huniq e' (by simp [he']) hg'
      rw [this] at hv
      rw [hv]
    | none =>
      have hnr : e ∉ rest := by
        intro hmem
        have := lastHit_isSome_of_mem wm rest i e hmem hg
        rw [hr] at this
        simp at this
      rcases List.mem_cons.1 he with h' | h'
      · subst h'
        have hg' : aget wm u = some i := hg
        simp [hg']
      · exact absurd h' hnr

theorem mem_unique_of_nodup_keys {β : Type} (p : List (String × β))
    (hN : (p.map Prod.fst).Nodup) :
    ∀ a ∈ p, ∀ b ∈ p, a.1 = b.1 → a = b := by
  induction p with
  | nil => intro a ha; simp at ha
  | cons e rest ih =>
    intro a ha b hb hab
    simp only [List.map_cons, List.nodup_cons] at hN
    rcases List.mem_cons.1 ha with ha' | ha' <;> rcases List.mem_cons.1 hb with hb' | hb'
    · rw [ha', hb']
    · subst ha'
      exact absurd (hab ▸ List.mem_map_of_mem Prod.fst hb') hN.1
    · subst hb'
      exact absurd (hab ▸ List.mem_map_of_mem Prod.fst ha') hN.1
    · exact ih hN.2 a ha' b hb' hab

theorem ainsert_keys {β : Type} (m : List (String × β)) (k : String) (v : β) :
    (ainsert m k v).map Prod.fst =
      if k ∈ m.map Prod.fst then m.map Prod.fst else m.map Prod.fst ++ [k] := by
  induction m with
  | nil => simp [ainsert]
  | cons e rest ih =>
    by_cases he : e.1 = k
    · subst he
      simp [ainsert]
    · have he' : ¬ k = e.1 := fun hk => he hk.symm
      simp only [ainsert, if_neg he, List.map_cons, ih]
      by_cases hk : k ∈ rest.map Prod.fst
      · simp [hk, he']
      · simp [hk, he']

theorem ainsert_keys_nodup {β : Type} (m : List (String × β)) (k : String) (v : β)
    (h : (m.map Prod.fst).Nodup) : ((ainsert m k v).map Prod.fst).Nodup := by
  rw [ainsert_keys]
  by_cases hk : k ∈ m.map Prod.fst
  · simpa [hk] using h
  · rw [if_neg hk, List.nodup_append]
    refine ⟨h, List.nodup_singleton k, ?_⟩
    intro a ha hb
    simp only [List.mem_singleton] at hb
    subst hb
    exact hk ha

theorem jsMap_keys_nodup {β : Type} (l : List (String × β)) :
    ((jsMap l).map Prod.fst).Nodup := by
  have aux : ∀ acc : List (String × β), (acc.map Prod.fst).Nodup →
      ((l.foldl (fun m p => ainsert m p.1 p.2) acc).map Prod.fst).Nodup := by
    induction l with
    | nil => intro acc h; exact h
    | cons e rest ih =>
      intro acc h
      exact ih (ainsert acc e.1 e.2) (ainsert_keys_nodup acc e.1 e.2 h)
  exact aux [] (by simp)

theorem aget_of_mem_nodup {β : Type} (l : List (String × β)) (u : String) (v : β)
    (hN : (l.map Prod.fst).Nodup) (hm : (u, v) ∈ l) : aget l u = some v := by
  induction l with
  | nil => simp at hm
  | cons e rest ih =>
    simp only [List.map_cons, List.nodup_cons] at hN
    rcases List.mem_cons.1 hm with h' | h'
    · rw [← h']
      simp [aget]
    · have he : ¬ e.1 = u := by
        intro hk
        exact hN.1 (hk ▸ List.mem_map_of_mem Prod.fst h')
      simp only [aget, if_neg he]
      exact ih hN.2 h'

theorem handle_windows_eq (st s1 : St) (p : List (UUID × Workspace))
    (mv : Option (List (UUID × Workspace)))
    (rn : Option (List (Workspace × Workspace)))
    (h : unbeaconifyWindows st (p.map Prod.fst) = .ok s1) :
    handleHostMessage st ⟨some p, mv, rn⟩ = windowsMoved s1 p := by
  show (unbeaconifyWindows st (p.map Prod.fst)).bind (fun s => windowsMoved s p) =
    windowsMoved s1 p
  rw [h]
  rfl

theorem handle_windows_ok (st st' : St) (p : List (UUID × Workspace))
    (mv : Option (List (UUID × Workspace)))
    (rn : Option (List (Workspace × Workspace)))
    (h : handleHostMessage st ⟨some p, mv, rn⟩ = .ok st') :
    ∃ s1, unbeaconifyWindows st (p.map Prod.fst) = .ok s1 ∧
      windowsMoved s1 p = .ok st' := by
  have h' : (unbeaconifyWindows st (p.map Prod.fst)).bind
      (fun s => windowsMoved s p) = .ok st' := h
  cases hu : unbeaconifyWindows st (p.map Prod.fst) with
  | error s => rw [hu] at h'; exact Except.noConfusion h'
  | ok s1 => rw [hu] at h'; exact ⟨s1, rfl, h'⟩

theorem handle_move_eq (st : St) (p : List (UUID × Workspace))
    (rn : Option (List (Workspace × Workspace))) :
    handleHostMessage st ⟨none, some p, rn⟩ = windowsMoved st p := rfl

theorem unbeaconify_append (us1 us2 : List UUID) :
    ∀ st s1, unbeaconifyWindows st us1 = .ok s1 →
      unbeaconifyWindows st (us1 ++ us2) = unbeaconifyWindows s1 us2 := by
  induction us1 with
  | nil =>
    intro st s1 h
    simp only [unbeaconifyWindows, Except.ok.injEq] at h
    subst h
    simp
  | cons u rest ih =>
    intro st s1 h
    cases hg : aget st.windowMap u with
    | none => simp [unbeaconifyWindows, hg] at h
    | some i =>
      simp only [unbeaconifyWindows, hg] at h
      simp only [List.cons_append, unbeaconifyWindows, hg]
      exact ih (setTitle st i "") s1 h

theorem unbeaconify_error_head (st : St) (u : UUID) (us : List UUID)
    (h : aget st.windowMap u = none) :
    unbeaconifyWindows st (u :: us) = .error st := by
  simp [unbeaconifyWindows, h]

theorem handle_windows_error (st s : St) (p : List (UUID × Workspace))
    (mv : Option (List (UUID × Workspace)))
    (rn : Option (List (Workspace × Workspace)))
    (h : unbeaconifyWindows st (p.map Prod.fst) = .error s) :
    handleHostMessage st ⟨some p, mv, rn⟩ = .error s := by
  show (unbeaconifyWindows st (p.map Prod.fst)).bind (fun s' => windowsMoved s' p) =
    .error s
  rw [h]
  rfl

theorem mkSingle (gen : Nat → UUID) (st : St) (k : Nat) (w : WindowID) :
    ∃ u st1 k1, makeWindowMap gen st k [w] = (st1, k1, [(u, w)]) ∧
      st1.windowMap = st.windowMap ∧ st1.wsStore = st.wsStore := by
  cases hu : st.uuidStore w with
  | some u =>
    exact ⟨u, st, k, by simp [makeWindowMap, makeWindowMapGo, hu, jsMap, ainsert],
      rfl, rfl⟩
  | none =>
    exact ⟨gen k, setUuid st w (gen k), k + 1,
      by simp [makeWindowMap, makeWindowMapGo, hu, jsMap, ainsert], by simp, by simp⟩

theorem aget_merge_last (old : List (UUID × WindowID)) (u : UUID) (w : WindowID) :
    aget (jsMap (old ++ [(u, w)])) u = some w := by
  rw [aget_jsMap, agetLast_append]
  simp [agetLast]

theorem response_clears (st3 st4 : St) (u : UUID) (i : WindowID)
    (resp : List (UUID × Workspace)) (mv : Option (List (UUID × Workspace)))
    (rn : Option (List (Workspace × Workspace)))
    (hmap : aget st3.windowMap u = some i)
    (hok : handleHostMessage st3 ⟨some resp, mv, rn⟩ = .ok st4)
    (hmem : u ∈ resp.map Prod.fst) : st4.title i = "" := by
  obtain ⟨s1, hs1, hmov⟩ := handle_windows_ok st3 st4 resp mv rn hok
  have htitle := unbeaconify_title (resp.map Prod.fst) st3 s1 hs1 i
  have hcond : ∃ u' ∈ resp.map Prod.fst, aget st3.windowMap u' = some i :=
    ⟨u, hmem, hmap⟩
  rw [if_pos hcond] at htitle
  have := (windowsMoved_fields resp s1 st4 hmov).2.2.2
  rw [this, htitle]

theorem genU_inj : ∀ i j, genU i = genU j → i = j := by
  intro i j h
  have hd : (genU i).data = (genU j).data := by rw [h]
  simp only [genU] at hd
  have := congrArg List.length hd
  simpa using this

theorem makeWindowMap_eq (gen : Nat → UUID) (st : St) (k : Nat)
    (ws : List WindowID) :
    makeWindowMap gen st k ws =
      ((makeWindowMapGo gen st k ws).1, (makeWindowMapGo gen st k ws).2.1,
        jsMap (makeWindowMapGo gen st k ws).2.2) := rfl

theorem main_eq (gen : Nat → UUID) (st : St) (k : Nat) :
    main gen st k =
      (beaconifyWindows (mainMerged gen st k) (mainMerged gen st k).windowMap,
        (makeWindowMap gen st k st.openWindows).2.1,
        makeWindowsMessage (mainMerged gen st k)
          (mainMerged gen st k).windowMap) := rfl

theorem append_bar_ne_empty (s : String) : s ++ " | " ≠ "" := by
  intro h
  have := congrArg String.length h
  rw [String.length_append] at this
  have h3 : (" | " : String).length = 3 := rfl
  rw [h3] at this
  simp at this

/-! Claim theorems. -/

/-- C10: a host message in which the keys `windows`, `window::move` and
`workspace::rename` are all absent (or falsy) is a no-op:
`handleHostMessage` succeeds and returns the state unchanged, so no window
title, no session-store value and no window-map entry is modified. -/
theorem claim_C10 (st : St) : handleHostMessage st ⟨none, none, none⟩ = .ok st := rfl

/-- C5: `makeWindowsMessage` yields a payload with exactly one entry per
identity of the given mapping, in order, and the entry of an identity
carries that window's stored `workspace` session value, `none` modelling
the JS `null` used when nothing is stored.  The embedding of the source is
a pure function of the state: it performs no write to the session store,
the titles, or the window map. -/
theorem claim_C5 (st : St) (byUUID : List (UUID × WindowID)) :
    (makeWindowsMessage st byUUID).map Prod.fst = byUUID.map Prod.fst ∧
    ∀ u i, (u, i) ∈ byUUID → (u, st.wsStore i) ∈ makeWindowsMessage st byUUID := by
  constructor
  · simp [makeWindowsMessage]
  · intro u i h
    simp only [makeWindowsMessage, List.mem_map]
    exact ⟨(u, i), h, rfl⟩

/-- C9: `updateWindowMap` merges `wmap` into the window map: for every
identity, the merged map yields `wmap`'s handle when the identity is in
`wmap` and the old handle otherwise (last-writer-wins per identity), and an
identity is present in the merged map exactly when it is present in either
input.  The `Nodup` hypotheses state that both inputs are well-formed JS
maps (unique keys). -/
theorem claim_C9 (st : St) (wmap : List (UUID × WindowID))
    (h1 : (st.windowMap.map Prod.fst).Nodup)
    (h2 : (wmap.map Prod.fst).Nodup) :
    (∀ u, aget (updateWindowMap st wmap).windowMap u =
      match aget wmap u with
      | some i => some i
      | none => aget st.windowMap u) ∧
    ∀ u, (aget (updateWindowMap st wmap).windowMap u).isSome ↔
      ((aget st.windowMap u).isSome ∨ (aget wmap u).isSome) := by
  have key : ∀ u, aget (updateWindowMap st wmap).windowMap u =
      match aget wmap u with
      | some i => some i
      | none => aget st.windowMap u := by
    intro u
    show aget (jsMap (st.windowMap ++ wmap)) u = _
    rw [aget_jsMap, agetLast_append, agetLast_eq_aget st.windowMap h1,
      agetLast_eq_aget wmap h2]
    cases h : aget wmap u <;> simp
  refine ⟨key, fun u => ?_⟩
  rw [key u]
  cases h : aget wmap u <;> simp [h]

/-- Witness for C9: with old map `a ↦ 1` and new mapping `a ↦ 2, b ↦ 3`,
the merged map maps `a` to the new handle 2. -/
theorem claim_C9_witness :
    aget (updateWindowMap ⟨[("a", 1)], [], fun _ => none, fun _ => none, fun _ => ""⟩
      [("a", 2), ("b", 3)]).windowMap "a" = some 2 := by
  have h := claim_C9 ⟨[("a", 1)], [], fun _ => none, fun _ => none, fun _ => ""⟩
    [("a", 2), ("b", 3)] (by decide) (by decide)
  rw [h.1 "a"]
  decide

/-- C6: `beaconifyWindows` writes exactly the string `uuid ++ " | "`
(identity, space, vertical bar, space) as the title preface of each mapped
window and touches no other window's title; `unbeaconifyWindows` writes
exactly the empty string on each window named by the payload and touches no
other title.  The hypotheses: the mapping sends distinct windows (so no
entry overwrites another), and every uuid of the unbeaconify payload is
known (the failure-free case the claim describes). -/
theorem claim_C6 (st st2 : St) (byUUID : List (UUID × WindowID)) (us : List UUID)
    (hV : (byUUID.map Prod.snd).Nodup)
    (hK : ∀ u ∈ us, (aget st2.windowMap u).isSome) :
    (∀ e ∈ byUUID, (beaconifyWindows st byUUID).title e.2 = e.1 ++ " | ") ∧
    (∀ i, i ∉ byUUID.map Prod.snd → (beaconifyWindows st byUUID).title i = st.title i) ∧
    ∃ st', unbeaconifyWindows st2 us = .ok st' ∧
      (∀ u ∈ us, ∀ i, aget st2.windowMap u = some i → st'.title i = "") ∧
      ∀ i, (¬ ∃ u ∈ us, aget st2.windowMap u = some i) → st'.title i = st2.title i := by
  refine ⟨?_, ?_, ?_⟩
  · intro e he
    obtain ⟨u, i⟩ := e
    rw [beaconify_title, lastBeacon_of_mem byUUID u i hV he]
  · intro i hi
    rw [beaconify_title, lastBeacon_eq_none byUUID i hi]
  · obtain ⟨st', hst'⟩ := unbeaconify_isOk us st2 hK
    refine ⟨st', hst', ?_, ?_⟩
    · intro u hu i hi
      rw [unbeaconify_title us st2 st' hst' i, if_pos ⟨u, hu, hi⟩]
    · intro i hi
      rw [unbeaconify_title us st2 st' hst' i, if_neg hi]

/-- Witness for C6: beaconifying `x ↦ 1` writes `"x | "` on window 1, and
unbeaconifying the payload naming `x` resets window 1's preface to `""`. -/
theorem claim_C6_witness :
    (beaconifyWindows ⟨[("x", 1)], [1], fun _ => none, fun _ => none, fun _ => "t"⟩
      [("x", 1)]).title 1 = "x | " ∧
    ∃ st', unbeaconifyWindows
        ⟨[("x", 1)], [1], fun _ => none, fun _ => none, fun _ => "x | "⟩ ["x"] = .ok st' ∧
      st'.title 1 = "" := by
  have h1 := claim_C6 ⟨[("x", 1)], [1], fun _ => none, fun _ => none, fun _ => "t"⟩
    ⟨[("x", 1)], [1], fun _ => none, fun _ => none, fun _ => "x | "⟩
    [("x", 1)] ["x"] (by decide) (by decide)
  refine ⟨h1.1 ("x", 1) (by decide), ?_⟩
  obtain ⟨st', hok, hset, _⟩ := h1.2.2
  exact ⟨st', hok, hset "x" (by decide) 1 (by decide)⟩

/-- C1: applying a sync response (`handleHostMessage` on a message whose
`windows` key is present) succeeds and, for every identity of the payload,
resets the titlePreface of that identity's window to the empty string and
stores the returned placement as the window's `workspace` session value.
Hypotheses: every identity of the response is in the window map (sync
responses echo identities of this client's own requests), the payload is a
well-formed JSON object (distinct keys), and distinct identities resolve to
distinct windows. -/
theorem claim_C1 (st : St) (p : List (UUID × Workspace))
    (mv : Option (List (UUID × Workspace)))
    (rn : Option (List (Workspace × Workspace)))
    (hK : ∀ e ∈ p, (aget st.windowMap e.1).isSome)
    (hNk : (p.map Prod.fst).Nodup)
    (hInj : ∀ a ∈ p, ∀ b ∈ p,
      aget st.windowMap a.1 = aget st.windowMap b.1 → a.1 = b.1) :
    ∃ st', handleHostMessage st ⟨some p, mv, rn⟩ = .ok st' ∧
      ∀ e ∈ p, ∀ i, aget st.windowMap e.1 = some i →
        st'.title i = "" ∧ st'.wsStore i = some e.2 := by
  have hKs : ∀ u ∈ p.map Prod.fst, (aget st.windowMap u).isSome := by
    intro u hu
    obtain ⟨e, he, hee⟩ := List.mem_map.1 hu
    exact hee ▸ hK e he
  obtain ⟨s1, hs1⟩ := unbeaconify_isOk (p.map Prod.fst) st hKs
  have huf := unbeaconify_fields (p.map Prod.fst) st s1 hs1
  obtain ⟨st', hst'⟩ := windowsMoved_isOk p s1 (by rw [huf.1]; exact hK)
  refine ⟨st', ?_, ?_⟩
  · rw [handle_windows_eq st s1 p mv rn hs1]
    exact hst'
  · intro e he i hi
    have hmf := windowsMoved_fields p s1 st' hst'
    constructor
    · rw [hmf.2.2.2]
      have ht := unbeaconify_title (p.map Prod.fst) st s1 hs1 i
      rw [ht, if_pos ⟨e.1, List.mem_map_of_mem Prod.fst he, hi⟩]
    · have hws := windowsMoved_wsStore p s1 st' hst' i
      rw [huf.1] at hws
      have huniq : ∀ e' ∈ p, aget st.windowMap e'.1 = some i → e' = e := by
        intro e' he' hg'
        have hkey : e'.1 = e.1 := hInj e' he' e he (by rw [hg', hi])
        exact mem_unique_of_nodup_keys p hNk e' he' e he hkey
      rw [lastHit_of_unique st.windowMap p i e he hi huniq] at hws
      exact hws

/-- Witness for C1: a two-entry response `a ↦ "1", b ↦ "2"` against the map
`a ↦ 1, b ↦ 2` is applied: window 1 ends with empty preface and stored
placement `"1"`. -/
theorem claim_C1_witness :
    ∃ st', handleHostMessage
        ⟨[("a", 1), ("b", 2)], [1, 2], fun _ => none, fun _ => none, fun _ => "m"⟩
        ⟨some [("a", "1"), ("b", "2")], none, none⟩ = .ok st' ∧
      st'.title 1 = "" ∧ st'.wsStore 1 = some "1" := by
  have h := claim_C1
    ⟨[("a", 1), ("b", 2)], [1, 2], fun _ => none, fun _ => none, fun _ => "m"⟩
    [("a", "1"), ("b", "2")] none none (by decide) (by decide) (by decide)
  obtain ⟨st', hok, hall⟩ := h
  exact ⟨st', hok, hall ("a", "1") (by decide) 1 (by decide)⟩

/-- C8: applying the same sync response twice in a row leaves every
window's stored `workspace` session value as after the first application.
The hypothesis states that every identity of the payload is known, i.e.
the first application is the failure-free case the claim describes. -/
theorem claim_C8 (st : St) (p : List (UUID × Workspace))
    (mv : Option (List (UUID × Workspace)))
    (rn : Option (List (Workspace × Workspace)))
    (hK : ∀ e ∈ p, (aget st.windowMap e.1).isSome) :
    ∃ st1 st2, handleHostMessage st ⟨some p, mv, rn⟩ = .ok st1 ∧
      handleHostMessage st1 ⟨some p, mv, rn⟩ = .ok st2 ∧
      ∀ i, st2.wsStore i = st1.wsStore i := by
  have hKs : ∀ u ∈ p.map Prod.fst, (aget st.windowMap u).isSome := by
    intro u hu
    obtain ⟨e, he, hee⟩ := List.mem_map.1 hu
    exact hee ▸ hK e he
  obtain ⟨s1, hs1⟩ := unbeaconify_isOk (p.map Prod.fst) st hKs
  have huf := unbeaconify_fields (p.map Prod.fst) st s1 hs1
  obtain ⟨st1, hst1⟩ := windowsMoved_isOk p s1 (by rw [huf.1]; exact hK)
  have hmf := windowsMoved_fields p s1 st1 hst1
  have hwm1 : st1.windowMap = st.windowMap := by rw [hmf.1, huf.1]
  obtain ⟨s1', hs1'⟩ := unbeaconify_isOk (p.map Prod.fst) st1 (by rw [hwm1]; exact hKs)
  have huf' := unbeaconify_fields (p.map Prod.fst) st1 s1' hs1'
  obtain ⟨st2, hst2⟩ := windowsMoved_isOk p s1' (by rw [huf'.1, hwm1]; exact hK)
  refine ⟨st1, st2, ?_, ?_, ?_⟩
  · rw [handle_windows_eq st s1 p mv rn hs1]; exact hst1
  · rw [handle_windows_eq st1 s1' p mv rn hs1']; exact hst2
  · intro i
    have hws1 := windowsMoved_wsStore p s1 st1 hst1 i
    have hws2 := windowsMoved_wsStore p s1' st2 hst2 i
    rw [huf.1] at hws1
    rw [huf'.1, hwm1] at hws2
    cases hlh : lastHit st.windowMap p i with
    | some v =>
      rw [hlh] at hws1 hws2
      rw [hws1, hws2]
    | none =>
      rw [hlh] at hws1 hws2
      rw [hws2]
      have : s1'.wsStore = st1.wsStore := huf'.2.2.2
      rw [this]

/-- Witness for C8: the response `a ↦ "2"` applied twice to the map
`a ↦ 1`; the second application reproduces the first one's stored value. -/
theorem claim_C8_witness :
    ∃ st1 st2, handleHostMessage
        ⟨[("a", 1)], [1], fun _ => none, fun _ => none, fun _ => ""⟩
        ⟨some [("a", "2")], none, none⟩ = .ok st1 ∧
      handleHostMessage st1 ⟨some [("a", "2")], none, none⟩ = .ok st2 ∧
      st2.wsStore 1 = st1.wsStore 1 := by
  have h := claim_C8 ⟨[("a", 1)], [1], fun _ => none, fun _ => none, fun _ => ""⟩
    [("a", "2")] none none (by decide)
  obtain ⟨st1, st2, h1, h2, h3⟩ := h
  exact ⟨st1, st2, h1, h2, h3 1⟩

theorem renameLookup_single (old new : Workspace) (o : Option Workspace) :
    renameLookup [(old, new)] o =
      if (o.getD "undefined") = old then .str new
      else if (o.getD "undefined") = "__proto__" then .protoProto
      else if (o.getD "undefined") ∈ protoKeys then .protoFun
      else .missing := by
  unfold renameLookup jsProp
  by_cases h1 : (o.getD "undefined") = old
  · simp [aget, h1]
  · have h1' : ¬ old = (o.getD "undefined") := fun hk => h1 hk.symm
    simp [aget, h1, h1']

theorem renameLookup_protoFun_iff (old new : Workspace) (o : Option Workspace) :
    renameLookup [(old, new)] o = .protoFun ↔
      (o.getD "undefined") ≠ old ∧ (o.getD "undefined") ≠ "__proto__" ∧
        (o.getD "undefined") ∈ protoKeys := by
  rw [renameLookup_single]
  by_cases h1 : (o.getD "undefined") = old
  · simp [h1]
  · by_cases h2 : (o.getD "undefined") = "__proto__"
    · have h1' : ¬ ("__proto__" : String) = old := h2 ▸ h1
      simp [h1, h2, h1']
    · by_cases h3 : (o.getD "undefined") ∈ protoKeys
      · simp [h1, h2, h3]
      · simp [h1, h2, h3]

/-- Counterexample to C2: the claim says a window whose stored value is
anything but the old name — including no stored value at all — keeps its
value.  But `workspaceRenamed` reads the stored value into `oldWorkspace`
and evaluates `payload[oldWorkspace]`, a JS property access.  Two concrete
refutations: (a) for a window with no stored value the access is
`payload[undefined]`, i.e. the property `"undefined"`, so renaming a
workspace literally named `undefined` to `"2"` rewrites that window to
`"2"`; (b) for a window stored at `"__proto__"`, the access finds the
prototype-inherited `Object.prototype` (not `undefined`) under *any*
rename, and the stored value is overwritten with its serialization (the
empty plain object, represented in the string-typed store by
`"[object Object]"`). -/
theorem claim_C2_counterexample :
    ((⟨[], [0], fun _ => none, fun _ => none, fun _ => ""⟩ : St).wsStore 0 = none ∧
      (⟨[], [0], fun _ => none, fun _ => none, fun _ => ""⟩ : St).wsStore 0 ≠
        some "undefined" ∧
      (workspaceRenamed ⟨[], [0], fun _ => none, fun _ => none, fun _ => ""⟩
        [("undefined", "2")]).1.wsStore 0 = some "2") ∧
    (⟨[], [0], fun _ => none, fun _ => some "__proto__", fun _ => ""⟩ : St).wsStore 0 =
        some "__proto__" ∧
    (⟨[], [0], fun _ => none, fun _ => some "__proto__", fun _ => ""⟩ : St).wsStore 0 ≠
        some "1" ∧
    (workspaceRenamed ⟨[], [0], fun _ => none, fun _ => some "__proto__", fun _ => ""⟩
      [("1", "2")]).1.wsStore 0 = some "[object Object]" := by
  exact ⟨⟨rfl, by decide, by decide⟩, rfl, by decide, by decide⟩

/-- C2 as amended: after a rename notification `old ↦ new`, the key looked
up for an open window is its stored workspace, or the string `"undefined"`
when nothing is stored (JS coerces the `undefined` read to that property
key).  If that key equals `old`, the window's stored value becomes `new`
(this covers every window whose stored value equals `old`, and windows
with no stored value when `old` is literally `"undefined"`).  Otherwise,
if the key is `"__proto__"`, the access finds the prototype-inherited
`Object.prototype` and the stored value is overwritten with its
serialization (the empty object, represented by `"[object Object]"`).
Otherwise the stored value is kept — but when the key is one of the other
`Object.prototype` property names (`toString`, ...), the inherited
function is found, its `setWindowValue` write is rejected as not
JSON-ifiable, and the handler's awaited batch fails: the error flag is set
exactly when some open window hits such a key.  Windows that are not open
are never touched.  The hypothesis says the open-window list has no
duplicates, as `browser.windows.getAll` guarantees. -/
theorem claim_C2_amended (st : St) (old new : Workspace)
    (hN : st.openWindows.Nodup) :
    (∀ w ∈ st.openWindows,
      (workspaceRenamed st [(old, new)]).1.wsStore w =
        if (st.wsStore w).getD "undefined" = old then some new
        else if (st.wsStore w).getD "undefined" = "__proto__" then
          some emptyObjectRepr
        else st.wsStore w) ∧
    (∀ w, w ∉ st.openWindows →
      (workspaceRenamed st [(old, new)]).1.wsStore w = st.wsStore w) ∧
    ((workspaceRenamed st [(old, new)]).2 = true ↔
      ∃ w ∈ st.openWindows, (st.wsStore w).getD "undefined" ≠ old ∧
        (st.wsStore w).getD "undefined" ≠ "__proto__" ∧
        (st.wsStore w).getD "undefined" ∈ protoKeys) := by
  refine ⟨?_, ?_, ?_⟩
  · intro w hw
    have h := renameGo_mem [(old, new)] st.openWindows st hN w hw
    show (workspaceRenamedGo [(old, new)] st st.openWindows).1.wsStore w = _
    rw [h, renameLookup_single]
    by_cases h1 : (st.wsStore w).getD "undefined" = old
    · simp [h1]
    · by_cases h2 : (st.wsStore w).getD "undefined" = "__proto__"
      · have h1' : ¬ ("__proto__" : String) = old := h2 ▸ h1
        simp [h1, h2, h1']
      · by_cases h3 : (st.wsStore w).getD "undefined" ∈ protoKeys
        · simp [h1, h2, h3]
        · simp [h1, h2, h3]
  · intro w hw
    exact renameGo_not_mem [(old, new)] st.openWindows w st hw
  · show (workspaceRenamedGo [(old, new)] st st.openWindows).2 = true ↔ _
    rw [renameGo_flag [(old, new)] st.openWindows st hN]
    constructor
    · rintro ⟨w, hw, h⟩
      exact ⟨w, hw, (renameLookup_protoFun_iff old new (st.wsStore w)).1 h⟩
    · rintro ⟨w, hw, h⟩
      exact ⟨w, hw, (renameLookup_protoFun_iff old new (st.wsStore w)).2 h⟩

/-- Witness for the amended C2: renaming `1 ↦ 9` over four windows stored
at `"1"`, `"2"`, `"__proto__"` and `"toString"`: the first is renamed, the
second keeps its value, the third is overwritten with the serialized empty
object, the fourth keeps its value but its rejected write sets the error
flag. -/
theorem claim_C2_witness :
    (workspaceRenamed
      ⟨[], [1, 2, 3, 4], fun _ => none,
        fun i => if i = 1 then some "1" else if i = 2 then some "2"
          else if i = 3 then some "__proto__" else some "toString",
        fun _ => ""⟩
      [("1", "9")]).1.wsStore 1 = some "9" ∧
    (workspaceRenamed
      ⟨[], [1, 2, 3, 4], fun _ => none,
        fun i => if i = 1 then some "1" else if i = 2 then some "2"
          else if i = 3 then some "__proto__" else some "toString",
        fun _ => ""⟩
      [("1", "9")]).1.wsStore 2 = some "2" ∧
    (workspaceRenamed
      ⟨[], [1, 2, 3, 4], fun _ => none,
        fun i => if i = 1 then some "1" else if i = 2 then some "2"
          else if i = 3 then some "__proto__" else some "toString",
        fun _ => ""⟩
      [("1", "9")]).1.wsStore 3 = some "[object Object]" ∧
    (workspaceRenamed
      ⟨[], [1, 2, 3, 4], fun _ => none,
        fun i => if i = 1 then some "1" else if i = 2 then some "2"
          else if i = 3 then some "__proto__" else some "toString",
        fun _ => ""⟩
      [("1", "9")]).1.wsStore 4 = some "toString" ∧
    (workspaceRenamed
      ⟨[], [1, 2, 3, 4], fun _ => none,
        fun i => if i = 1 then some "1" else if i = 2 then some "2"
          else if i = 3 then some "__proto__" else some "toString",
        fun _ => ""⟩
      [("1", "9")]).2 = true := by
  have h := claim_C2_amended
    ⟨[], [1, 2, 3, 4], fun _ => none,
      fun i => if i = 1 then some "1" else if i = 2 then some "2"
        else if i = 3 then some "__proto__" else some "toString",
      fun _ => ""⟩
    "1" "9" (by decide)
  refine ⟨?_, ?_, ?_, ?_, ?_⟩
  · rw [h.1 1 (by decide)]
    decide
  · rw [h.1 2 (by decide)]
    decide
  · rw [h.1 3 (by decide)]
    decide
  · rw [h.1 4 (by decide)]
    decide
  · exact h.2.2.mpr ⟨4, by decide, by decide, by decide, by decide⟩

/-- Counterexample to C3: a move notification naming the unknown identity
`b` first and the known identity `a` (mapped to window 1) second.  The
claim says the unknown entry is silently ignored, no error is raised and
the entry for `a` is still applied.  In the code, `windowMap.get("b")` is
`undefined` and `sessions.setWindowValue(undefined, ...)` fails, so
`handleHostMessage` raises an error and window 1's stored placement stays
`none` — the known entry is not applied either. -/
theorem claim_C3_counterexample :
    handleHostMessage ⟨[("a", 1)], [1], fun _ => none, fun _ => none, fun _ => ""⟩
        ⟨none, some [("b", "2"), ("a", "3")], none⟩ =
      .error ⟨[("a", 1)], [1], fun _ => none, fun _ => none, fun _ => ""⟩ ∧
    (⟨[("a", 1)], [1], fun _ => none, fun _ => none, fun _ => ""⟩ : St).wsStore 1 =
      none := ⟨rfl, rfl⟩

/-- C3 as amended: when a move notification or a sync response names an
identity that is not in the window map, the browser call for that entry is
issued with an undefined window id and fails, so `handleHostMessage`
results in an error rather than silently ignoring the entry.  For a move
notification, the `setWindowValue` writes issued before the first unknown
identity have been applied when the failure occurs, those from the unknown
entry on never are.  For a sync response, the failure occurs already in
`unbeaconifyWindows`: the title prefaces of the windows named before the
unknown identity are cleared, no `setWindowValue` write is applied at all,
and the session store is untouched. -/
theorem claim_C3_amended (st : St) (p1 : List (UUID × Workspace)) (u : UUID)
    (w : Workspace) (p2 : List (UUID × Workspace))
    (mv : Option (List (UUID × Workspace)))
    (rn : Option (List (Workspace × Workspace)))
    (hK1 : ∀ e ∈ p1, (aget st.windowMap e.1).isSome)
    (hU : aget st.windowMap u = none) :
    (∃ stE, handleHostMessage st ⟨none, some (p1 ++ (u, w) :: p2), rn⟩ = .error stE ∧
      stE.windowMap = st.windowMap ∧ stE.title = st.title ∧
      ∀ i, stE.wsStore i =
        match lastHit st.windowMap p1 i with
        | some v => some v
        | none => st.wsStore i) ∧
    ∃ stE, handleHostMessage st ⟨some (p1 ++ (u, w) :: p2), mv, rn⟩ = .error stE ∧
      stE.windowMap = st.windowMap ∧ stE.wsStore = st.wsStore ∧
      stE.uuidStore = st.uuidStore ∧
      ∀ i, stE.title i =
        if ∃ u' ∈ p1.map Prod.fst, aget st.windowMap u' = some i
        then "" else st.title i := by
  constructor
  · obtain ⟨s1, hs1⟩ := windowsMoved_isOk p1 st hK1
    have hfields := windowsMoved_fields p1 st s1 hs1
    refine ⟨s1, ?_, hfields.1, hfields.2.2.2,
      fun i => windowsMoved_wsStore p1 st s1 hs1 i⟩
    rw [handle_move_eq, windowsMoved_append p1 ((u, w) :: p2) st s1 hs1]
    apply windowsMoved_error_head
    rw [hfields.1]
    exact hU
  · have hK1s : ∀ u' ∈ p1.map Prod.fst, (aget st.windowMap u').isSome := by
      intro u' hu'
      obtain ⟨e, he, hee⟩ := List.mem_map.1 hu'
      exact hee ▸ hK1 e he
    obtain ⟨s1, hs1⟩ := unbeaconify_isOk (p1.map Prod.fst) st hK1s
    have hf := unbeaconify_fields (p1.map Prod.fst) st s1 hs1
    refine ⟨s1, ?_, hf.1, hf.2.2.2, hf.2.2.1,
      fun i => unbeaconify_title (p1.map Prod.fst) st s1 hs1 i⟩
    apply handle_windows_error
    have hmap : (p1 ++ (u, w) :: p2).map Prod.fst =
        p1.map Prod.fst ++ u :: p2.map Prod.fst := by simp
    rw [hmap, unbeaconify_append (p1.map Prod.fst) (u :: p2.map Prod.fst) st s1 hs1]
    apply unbeaconify_error_head
    rw [hf.1]
    exact hU

/-- Witness for the amended C3: map `a ↦ 1`, payload `a ↦ "9"` then the
unknown `b ↦ "2"`.  As a move notification the handler errors, yet `a`'s
entry — issued before the failing call — is applied, leaving window 1 at
`"9"`.  As a sync response the handler errors in the unbeaconify batch:
window 1's preface (named before the unknown identity) is cleared, but its
stored placement is untouched. -/
theorem claim_C3_witness :
    (∃ stE, handleHostMessage
        ⟨[("a", 1)], [1], fun _ => none, fun _ => none, fun _ => "m"⟩
        ⟨none, some ([("a", "9")] ++ ("b", "2") :: []), none⟩ = .error stE ∧
      stE.wsStore 1 = some "9") ∧
    ∃ stE, handleHostMessage
        ⟨[("a", 1)], [1], fun _ => none, fun _ => none, fun _ => "m"⟩
        ⟨some ([("a", "9")] ++ ("b", "2") :: []), none, none⟩ = .error stE ∧
      stE.wsStore 1 = none ∧ stE.title 1 = "" := by
  have h := claim_C3_amended
    ⟨[("a", 1)], [1], fun _ => none, fun _ => none, fun _ => "m"⟩
    [("a", "9")] "b" "2" [] none none (by decide) (by decide)
  constructor
  · obtain ⟨stE, herr, _, _, hws⟩ := h.1
    refine ⟨stE, herr, ?_⟩
    rw [hws 1]
    decide
  · obtain ⟨stE, herr, _, hws, _, htitle⟩ := h.2
    refine ⟨stE, herr, ?_, ?_⟩
    · rw [hws]
    · rw [htitle 1]
      have : ∃ u' ∈ [("a", "9")].map (Prod.fst (α := UUID) (β := Workspace)),
          aget ([("a", 1)] : List (UUID × WindowID)) u' = some 1 := by decide
      rw [if_pos this]

/-- C4: `makeWindowMap` leaves a window's already-stored uuid unchanged and
maps it in the result; a window with no stored uuid gets a freshly
generated uuid persisted and mapped; windows outside the input list are
never written; and the returned map has exactly one identity-to-handle
entry per input window, in order.  Hypotheses: the generator never repeats
(`crypto.randomUUID`'s uniqueness), fresh uuids do not collide with stored
ones, stored uuids are pairwise distinct, and the window list has no
duplicates — together, the uuid-uniqueness assumptions of the design. -/
theorem claim_C4 (gen : Nat → UUID) (st : St) (k : Nat) (ws : List WindowID)
    (hInj : ∀ i j, gen i = gen j → i = j)
    (hD : ∀ w w' u, st.uuidStore w = some u → st.uuidStore w' = some u → w = w')
    (hF : ∀ i w, k ≤ i → st.uuidStore w ≠ some (gen i))
    (hN : ws.Nodup) :
    (∀ w u, w ∈ ws → st.uuidStore w = some u →
      (makeWindowMap gen st k ws).1.uuidStore w = some u ∧
      (u, w) ∈ (makeWindowMap gen st k ws).2.2) ∧
    (∀ w, w ∈ ws → st.uuidStore w = none →
      ∃ u, (makeWindowMap gen st k ws).1.uuidStore w = some u ∧
        (u, w) ∈ (makeWindowMap gen st k ws).2.2) ∧
    (∀ w, w ∉ ws → (makeWindowMap gen st k ws).1.uuidStore w = st.uuidStore w) ∧
    (makeWindowMap gen st k ws).2.2.map Prod.snd = ws := by
  have hkeysN := mkGo_keys_nodup gen hInj ws st k hD hF hN
  have hjs : jsMap (makeWindowMapGo gen st k ws).2.2 =
      (makeWindowMapGo gen st k ws).2.2 := jsMap_eq_self _ hkeysN
  rw [makeWindowMap_eq, hjs]
  refine ⟨?_, ?_, ?_, ?_⟩
  · intro w u hw hu
    exact ⟨mkGo_keep gen ws st k w u hu, mkGo_mem_stored gen ws st k w u hw hu⟩
  · intro w hw hu
    exact mkGo_mem_fresh gen ws st k w hw hu
  · intro w hw
    exact mkGo_not_mem gen ws st k w hw
  · exact mkGo_snd gen ws st k

/-- Witness for C4: two windows without stored uuids get fresh uuids and
the returned map lists exactly them, in order. -/
theorem claim_C4_witness :
    (∃ u, (makeWindowMap genU
        ⟨[], [3, 4], fun _ => none, fun _ => none, fun _ => ""⟩ 0 [3, 4]).1.uuidStore 3 =
          some u ∧
      (u, 3) ∈ (makeWindowMap genU
        ⟨[], [3, 4], fun _ => none, fun _ => none, fun _ => ""⟩ 0 [3, 4]).2.2) ∧
    (makeWindowMap genU ⟨[], [3, 4], fun _ => none, fun _ => none, fun _ => ""⟩
      0 [3, 4]).2.2.map Prod.snd = [3, 4] := by
  have h := claim_C4 genU ⟨[], [3, 4], fun _ => none, fun _ => none, fun _ => ""⟩
    0 [3, 4] genU_inj (fun w w' u hw _ => Option.noConfusion hw)
    (fun i w _ hw => Option.noConfusion hw) (by decide)
  exact ⟨h.2.1 3 (by decide) rfl, h.2.2.2⟩

theorem main_fst (gen : Nat → UUID) (st : St) (k : Nat) :
    (main gen st k).1 =
      beaconifyWindows (mainMerged gen st k) (mainMerged gen st k).windowMap := rfl

theorem main_msg (gen : Nat → UUID) (st : St) (k : Nat) :
    (main gen st k).2.2 =
      makeWindowsMessage (mainMerged gen st k)
        (mainMerged gen st k).windowMap := rfl

/-- C7: at both sync-request sites — `handleWindowCreated` and `main` —
the batch of titlePreface updates is awaited before `host.postMessage`
runs: in the state paired with the posted message, every identity of the
message resolves through the window map to a window whose preface equals
`uuid ++ " | "`, a non-empty marker; and once a sync response naming that
identity is applied (`handleHostMessage` succeeding on a `windows`
payload containing it), that window's preface is the empty string.  The
hypothesis — needed for the `main` part only — says the merged window map
sends distinct windows, so no beaconify call overwrites another one's
marker. -/
theorem claim_C7 (gen : Nat → UUID) (st : St) (k : Nat) (w : WindowID)
    (stM : St) (kM : Nat)
    (hVm : ((mainMerged gen stM kM).windowMap.map Prod.snd).Nodup) :
    (∀ e ∈ (handleWindowCreated gen st k w).2.2,
      e.1 ++ " | " ≠ "" ∧
      ∃ i, aget (handleWindowCreated gen st k w).1.windowMap e.1 = some i ∧
        (handleWindowCreated gen st k w).1.title i = e.1 ++ " | " ∧
        ∀ resp mv rn st4,
          handleHostMessage (handleWindowCreated gen st k w).1
            ⟨some resp, mv, rn⟩ = .ok st4 →
          e.1 ∈ resp.map Prod.fst → st4.title i = "") ∧
    ∀ e ∈ (main gen stM kM).2.2,
      e.1 ++ " | " ≠ "" ∧
      ∃ i, aget (main gen stM kM).1.windowMap e.1 = some i ∧
        (main gen stM kM).1.title i = e.1 ++ " | " ∧
        ∀ resp mv rn st4,
          handleHostMessage (main gen stM kM).1 ⟨some resp, mv, rn⟩ = .ok st4 →
          e.1 ∈ resp.map Prod.fst → st4.title i = "" := by
  constructor
  · obtain ⟨u, st1, k1, hmk, hwm, hws⟩ := mkSingle gen st k w
    have hup : handleWindowCreated gen st k w =
        (beaconifyWindows (updateWindowMap st1 [(u, w)]) [(u, w)], k1,
          [(u, (updateWindowMap st1 [(u, w)]).wsStore w)]) := by
      unfold handleWindowCreated
      rw [hmk]
      rfl
    have hA1 : (handleWindowCreated gen st k w).1 =
        beaconifyWindows (updateWindowMap st1 [(u, w)]) [(u, w)] := by rw [hup]
    have hA2 : (handleWindowCreated gen st k w).2.2 =
        [(u, (updateWindowMap st1 [(u, w)]).wsStore w)] := by rw [hup]
    intro e he
    rw [hA2] at he
    simp only [List.mem_singleton] at he
    subst he
    have hag : aget (beaconifyWindows (updateWindowMap st1 [(u, w)])
        [(u, w)]).windowMap u = some w := by
      rw [(beaconify_fields [(u, w)] (updateWindowMap st1 [(u, w)])).1]
      exact aget_merge_last st1.windowMap u w
    refine ⟨append_bar_ne_empty u, w, ?_, ?_, ?_⟩
    · rw [hA1]
      exact hag
    · rw [hA1, beaconify_title]
      simp [lastBeacon]
    · intro resp mv rn st4 hok hmem
      rw [hA1] at hok
      exact response_clears _ st4 u w resp mv rn hag hok hmem
  · intro e he
    rw [main_msg] at he
    simp only [makeWindowsMessage, List.mem_map] at he
    obtain ⟨d, hd, hde⟩ := he
    obtain ⟨u0, i0⟩ := d
    subst hde
    have hkeys : ((mainMerged gen stM kM).windowMap.map Prod.fst).Nodup :=
      jsMap_keys_nodup ((makeWindowMap gen stM kM stM.openWindows).1.windowMap ++
        (makeWindowMap gen stM kM stM.openWindows).2.2)
    have hag : aget (mainMerged gen stM kM).windowMap u0 = some i0 :=
      aget_of_mem_nodup (mainMerged gen stM kM).windowMap u0 i0 hkeys hd
    have hag' : aget (main gen stM kM).1.windowMap u0 = some i0 := by
      rw [main_fst, (beaconify_fields _ _).1]
      exact hag
    refine ⟨append_bar_ne_empty u0, i0, hag', ?_, ?_⟩
    · rw [main_fst, beaconify_title,
        lastBeacon_of_mem (mainMerged gen stM kM).windowMap u0 i0 hVm hd]
    · intro resp mv rn st4 hok hmem
      exact response_clears _ st4 u0 i0 resp mv rn hag' hok hmem

/-- Witness for C7: a fresh add-on start (`main`) with one open window 5
and an empty map: the posted message names the identity `"u"` (with no
stored placement), and that window carries the non-empty marker `"u | "`
in the post-time state; applying a response naming `"u"` empties it. -/
theorem claim_C7_witness :
    ("u", (none : Option Workspace)) ∈
      (main genU ⟨[], [5], fun _ => none, fun _ => none, fun _ => ""⟩ 1).2.2 ∧
    ((("u" : String) ++ " | ") ≠ "" ∧
      ∃ i, aget (main genU ⟨[], [5], fun _ => none, fun _ => none, fun _ => ""⟩
          1).1.windowMap "u" = some i ∧
        (main genU ⟨[], [5], fun _ => none, fun _ => none, fun _ => ""⟩ 1).1.title i =
          "u" ++ " | " ∧
        ∀ resp mv rn st4,
          handleHostMessage
            (main genU ⟨[], [5], fun _ => none, fun _ => none, fun _ => ""⟩ 1).1
            ⟨some resp, mv, rn⟩ = .ok st4 →
          "u" ∈ resp.map Prod.fst → st4.title i = "") :=
  ⟨by decide,
    (claim_C7 genU ⟨[], [5], fun _ => none, fun _ => none, fun _ => ""⟩ 0 7
      ⟨[], [5], fun _ => none, fun _ => none, fun _ => ""⟩ 1 (by decide)).2
      ("u", none) (by decide)⟩

end Background
